import Mathlib

/-!
Shallow embedding of the address-book program (`src/task_one.py`).

Conventions of the embedding:
* Python exceptions (`ValueError`) are modelled with `Except String`,
  the `String` being the exception message; an operation that mutates an
  object in place is modelled as a function returning the new object in
  `Except`, so a raised exception leaves the caller's state unchanged,
  exactly as in Python where the raise happens before any mutation.
* `datetime.date` is modelled by `Date` (year, month, day) together with
  Python's own proleptic-Gregorian ordinal (`_ymd2ord`): `toOrdinal`.
  Python compares dates componentwise lexicographically and subtracts
  them through `toordinal`; both are reproduced below.
* `datetime.now().date()` is the implicit `today` argument of
  `days_to_birthday` / `get_upcoming_birthdays`; the embedding passes it
  explicitly.
* A `Phone` object is represented by its validated `value` string; a
  `dict` is represented by an insertion-ordered association list whose
  update-in-place/append behaviour mirrors CPython dictionaries.
-/

namespace ABook

/-- Python `calendar`/`datetime` leap-year rule (`_is_leap` in
`datetime.py`): `year % 4 == 0 and (year % 100 != 0 or year % 400 == 0)`. -/
def isLeap (y : Nat) : Bool :=
  decide (y % 4 = 0 ∧ (¬ y % 100 = 0 ∨ y % 400 = 0))

/-- `_days_in_month` of `datetime.py` (months are 1-based; out-of-range
months are never produced by a validated date, mapped to 0 here). -/
def daysInMonth (y m : Nat) : Nat :=
  if m = 1 then 31
  else if m = 2 then (if isLeap y then 29 else 28)
  else if m = 3 then 31
  else if m = 4 then 30
  else if m = 5 then 31
  else if m = 6 then 30
  else if m = 7 then 31
  else if m = 8 then 31
  else if m = 9 then 30
  else if m = 10 then 31
  else if m = 11 then 30
  else if m = 12 then 31
  else 0

/-- A `datetime.date` value: plain (year, month, day). -/
structure Date where
  year : Nat
  month : Nat
  day : Nat
  deriving DecidableEq, Repr

/-- The constructor check of `datetime.date` (`_check_date_fields`):
`MINYEAR = 1 <= year <= MAXYEAR = 9999`, `1 <= month <= 12`,
`1 <= day <= days_in_month(year, month)`. -/
def validDate (dt : Date) : Bool :=
  decide (1 ≤ dt.year ∧ dt.year ≤ 9999 ∧ 1 ≤ dt.month ∧ dt.month ≤ 12 ∧
    1 ≤ dt.day ∧ dt.day ≤ daysInMonth dt.year dt.month)

/-- `_days_before_year` of `datetime.py`:
`y = year - 1; y*365 + y//4 - y//100 + y//400`. -/
def daysBeforeYear (y : Nat) : Nat :=
  365 * (y - 1) + (y - 1) / 4 - (y - 1) / 100 + (y - 1) / 400

/-- CPython's `_DAYS_BEFORE_MONTH` table (index 1–12; the `-1` filler
at index 0 is never read and is mapped to 0 here). -/
def daysBeforeMonthTable (m : Nat) : Nat :=
  if m = 1 then 0
  else if m = 2 then 31
  else if m = 3 then 59
  else if m = 4 then 90
  else if m = 5 then 120
  else if m = 6 then 151
  else if m = 7 then 181
  else if m = 8 then 212
  else if m = 9 then 243
  else if m = 10 then 273
  else if m = 11 then 304
  else if m = 12 then 334
  else 0

/-- `_days_before_month` of `datetime.py`:
`_DAYS_BEFORE_MONTH[month] + (month > 2 and _is_leap(year))`. -/
def daysBeforeMonth (y m : Nat) : Nat :=
  daysBeforeMonthTable m + (if 2 < m ∧ isLeap y = true then 1 else 0)

/-- `date.toordinal()` (`_ymd2ord`): day number in the proleptic
Gregorian calendar, with 01.01.0001 as day 1. -/
def toOrdinal (dt : Date) : Nat :=
  daysBeforeYear dt.year + daysBeforeMonth dt.year dt.month + dt.day

/-- Python date comparison (`date.__lt__` compares the
(year, month, day) tuples lexicographically). -/
def dateLt (a b : Date) : Bool :=
  decide (a.year < b.year ∨ (a.year = b.year ∧ (a.month < b.month ∨
    (a.month = b.month ∧ a.day < b.day))))

/-- `Phone.__validate_phone` of `task_one.py`: length must be 10 and all
characters digits; on success the input string is returned unchanged. -/
def validate_phone (phone : String) : Except String String :=
  if phone.length ≠ 10 then
    .error "The phone number must contain 10 digits"
  else if ¬ (phone.data.all Char.isDigit = true) then
    .error "The phone number must contain only numbers"
  else
    .ok phone

/-- The phone invariant: exactly 10 characters, all decimal digits. -/
def validPhone (s : String) : Bool :=
  s.length == 10 && s.data.all Char.isDigit

/-- Numeric value of a decimal digit character. -/
def digitVal (c : Char) : Nat := c.toNat - 48

/-- Left fold accumulating the value of a digit string. -/
def digitsToNatAux : Nat → List Char → Nat
  | acc, [] => acc
  | acc, c :: t => digitsToNatAux (10 * acc + digitVal c) t

/-- Value of a string of decimal digit characters (most significant first),
as computed by Python `int(...)` on the matched token. -/
def digitsToNat : List Char → Nat
  | [] => 0
  | c :: t => digitsToNatAux (digitVal c) t

/-- The `%d` directive of CPython `_strptime`: regex
`3[0-1]|[1-2]\d|0[1-9]|[1-9]| [1-9]` — one or two digit characters
whose value is between 1 and 31 (the two-digit forms `01`–`31` and the
one-digit forms `1`–`9`; `0` and `00` match no alternative), or a
space followed by one digit `1`–`9`. -/
def dayTokenP (l : List Char) : Prop :=
  ((l.length = 1 ∨ l.length = 2) ∧ (∀ c ∈ l, c.isDigit = true) ∧
    1 ≤ digitsToNat l ∧ digitsToNat l ≤ 31) ∨
  (∃ c, l = [' ', c] ∧ c.isDigit = true ∧ 1 ≤ digitVal c)

instance (l : List Char) : Decidable (dayTokenP l) := by
  unfold dayTokenP
  have h : Decidable (∃ c, l = [' ', c] ∧ c.isDigit = true ∧ 1 ≤ digitVal c) :=
    match l with
    | [c1, c2] =>
      decidable_of_iff (c1 = ' ' ∧ c2.isDigit = true ∧ 1 ≤ digitVal c2) (by
        constructor
        · rintro ⟨rfl, h1, h2⟩
          exact ⟨c2, rfl, h1, h2⟩
        · rintro ⟨c, hc, h1, h2⟩
          obtain ⟨rfl, rfl⟩ : c1 = ' ' ∧ c2 = c := by simpa using hc
          exact ⟨rfl, h1, h2⟩)
    | [] => isFalse (by simp)
    | [c] => isFalse (by simp)
    | c1 :: c2 :: c3 :: t => isFalse (by simp)
  infer_instance

/-- The `%m` directive of CPython `_strptime`: regex
`1[0-2]|0[1-9]|[1-9]` — one or two digit characters with value 1–12. -/
def monthTokenP (l : List Char) : Prop :=
  (l.length = 1 ∨ l.length = 2) ∧ (∀ c ∈ l, c.isDigit = true) ∧
    1 ≤ digitsToNat l ∧ digitsToNat l ≤ 12

instance (l : List Char) : Decidable (monthTokenP l) := by
  unfold monthTokenP; infer_instance

/-- The `%Y` directive of CPython `_strptime`: regex `\d\d\d\d` —
exactly four digit characters. -/
def yearTokenP (l : List Char) : Prop :=
  l.length = 4 ∧ ∀ c ∈ l, c.isDigit = true

instance (l : List Char) : Decidable (yearTokenP l) := by
  unfold yearTokenP; infer_instance

/-- `datetime.strptime(s, "%d.%m.%Y")`, reduced to its field extraction:
the compiled format regex is `DAY\.MONTH\.\d\d\d\d` matched against the
whole string (`_strptime` rejects any unconverted remainder).  The
day/month alternatives match digit characters (plus the optional
leading space of `%d`) and are followed by a literal dot, so a
successful match forces the day (resp. month) token to be the entire
maximal (space-prefixed) digit run before the first (resp. second) dot.
Returns the `int(...)` values `(day, month, year)`; note that
`digitsToNat [' ', c] = digitVal c`, matching Python's
`int(" 5") = 5`. -/
def parseDMYTail (a rest1 : List Char) : Option (Nat × Nat × Nat) :=
  match rest1 with
  | c1 :: rest2 =>
    if c1 = '.' then
      match rest2.dropWhile Char.isDigit with
      | c2 :: rest4 =>
        if c2 = '.' then
          if dayTokenP a ∧ monthTokenP (rest2.takeWhile Char.isDigit) ∧ yearTokenP rest4 then
            some (digitsToNat a, digitsToNat (rest2.takeWhile Char.isDigit),
              digitsToNat rest4)
          else none
        else none
      | [] => none
    else none
  | [] => none

/-- Dispatch on the first character: the space alternative of `%d` can
apply only when the string starts with a space; every other alternative
starts with a digit, making the day token the maximal digit run. -/
def parseDMY : List Char → Option (Nat × Nat × Nat)
  | [] => parseDMYTail [] []
  | c0 :: t =>
    if c0 = ' ' then
      parseDMYTail (' ' :: t.takeWhile Char.isDigit) (t.dropWhile Char.isDigit)
    else
      parseDMYTail ((c0 :: t).takeWhile Char.isDigit) ((c0 :: t).dropWhile Char.isDigit)

/-- `Birthday.__validate_birthday` of `task_one.py`:
`datetime.strptime(birthday, "%d.%m.%Y").date()`, any `ValueError`
(regex mismatch or the `datetime.date` constructor check, which needs
`1 <= year` and `day <= days_in_month`) re-raised as
`"Invalid date format. Use DD.MM.YYYY"`. -/
def validate_birthday (s : String) : Except String Date :=
  match parseDMY s.data with
  | some (d, m, y) =>
    if 1 ≤ y ∧ d ≤ daysInMonth y m then .ok ⟨y, m, d⟩
    else .error "Invalid date format. Use DD.MM.YYYY"
  | none => .error "Invalid date format. Use DD.MM.YYYY"

/-- The format the spec's words describe for C2: exactly a two-digit
day, a dot, a two-digit month, a dot and a four-digit year, denoting a
valid calendar date.  This definition follows the SPEC text, to be
compared with `validate_birthday`, which follows the code. -/
def strictFormat (s : String) : Bool :=
  match s.data with
  | [d1, d2, dot1, m1, m2, dot2, y1, y2, y3, y4] =>
    d1.isDigit && d2.isDigit && dot1 == '.' && m1.isDigit && m2.isDigit && dot2 == '.' &&
      y1.isDigit && y2.isDigit && y3.isDigit && y4.isDigit &&
      validDate ⟨digitsToNat [y1, y2, y3, y4], digitsToNat [m1, m2], digitsToNat [d1, d2]⟩
  | _ => false

/-- `date.replace(year=y)` on a stored (already valid) date: re-runs the
`datetime.date` constructor check with the new year. -/
def replaceYear (dt : Date) (y : Nat) : Except String Date :=
  if ¬ (1 ≤ y ∧ y ≤ 9999) then .error "year is out of range"
  else if ¬ (1 ≤ dt.month ∧ dt.month ≤ 12) then .error "month must be in 1..12"
  else if ¬ (1 ≤ dt.day ∧ dt.day ≤ daysInMonth y dt.month) then
    .error "day is out of range for month"
  else .ok ⟨y, dt.month, dt.day⟩

/-- A `Record` of `task_one.py`: the `Name`/`Phone`/`Birthday` field
objects are represented by their `value` payloads. -/
structure Record where
  name : String
  phones : List String
  birthday : Option Date
  deriving DecidableEq, Repr

/-- `Record.__init__`: a fresh record has no phones and no birthday. -/
def Record.make (name : String) : Record :=
  ⟨name, [], none⟩

/-- `Record.find_phone`: first stored phone whose value equals the
argument; raises `"Phone number not found."` when there is none. -/
def find_phone (r : Record) (phone : String) : Except String String :=
  match r.phones.find? (fun p => p == phone) with
  | some p => .ok p
  | none => .error "Phone number not found."

/-- `Record.add_phone`: validate, then append. -/
def add_phone (r : Record) (phone : String) : Except String Record :=
  match validate_phone phone with
  | .error e => .error e
  | .ok v => .ok { r with phones := r.phones ++ [v] }

/-- `Record.remove_phone`: `find_phone`, then `list.remove`, which
deletes the first element equal to the found object (here: the first
entry equal to the argument). -/
def remove_phone (r : Record) (phone : String) : Except String Record :=
  match find_phone r phone with
  | .error e => .error e
  | .ok p => .ok { r with phones := r.phones.erase p }

/-- `Record.edit_phone`: `find_phone(old)`, validate the new number,
then `list.index` of the found object (= index of the first entry equal
to `old_phone`, since `find_phone` returns that very object) and
in-place assignment at that index. -/
def edit_phone (r : Record) (old_phone new_phone : String) : Except String Record :=
  match find_phone r old_phone with
  | .error e => .error e
  | .ok _ =>
    match validate_phone new_phone with
    | .error e => .error e
    | .ok v =>
      .ok { r with phones := r.phones.set (r.phones.findIdx (fun p => p == old_phone)) v }

/-- `Record.add_birthday`: parse and overwrite. -/
def add_birthday (r : Record) (birthday : String) : Except String Record :=
  match validate_birthday birthday with
  | .error e => .error e
  | .ok b => .ok { r with birthday := some b }

/-- `Record.days_to_birthday` with `datetime.now().date()` passed
explicitly as `today`:
`None` without a birthday; otherwise
`next_birthday = birthday.replace(year=today.year)`,
shifted to `today.year + 1` when strictly earlier than `today`, and the
day difference `(next_birthday - today).days` is returned. -/
def days_to_birthday (r : Record) (today : Date) : Except String (Option Int) :=
  match r.birthday with
  | none => .ok none
  | some b =>
    match replaceYear b today.year with
    | .error e => .error e
    | .ok nb =>
      if dateLt nb today then
        match replaceYear nb (today.year + 1) with
        | .error e => .error e
        | .ok nb2 => .ok (some ((toOrdinal nb2 : Int) - (toOrdinal today : Int)))
      else .ok (some ((toOrdinal nb : Int) - (toOrdinal today : Int)))

/-- `AddressBook.data`: a CPython `dict` from name to record, as an
insertion-ordered association list with unique keys. -/
abbrev AddressBook := List (String × Record)

/-- `self.data[k] = v` on a CPython dict: overwrite in place if the key
exists (keeping its position), otherwise append. -/
def dictSet : AddressBook → String → Record → AddressBook
  | [], k, v => [(k, v)]
  | (k', v') :: t, k, v => if k' = k then (k, v) :: t else (k', v') :: dictSet t k v

/-- `AddressBook.add_record`: `self.data[record.name.value] = record`. -/
def add_record (book : AddressBook) (r : Record) : AddressBook :=
  dictSet book r.name r

/-- `AddressBook.find`: `self.data.get(name)`. -/
def find : AddressBook → String → Option Record
  | [], _ => none
  | (k, v) :: t, name => if k = name then some v else find t name

/-- `del self.data[name]`: remove the (unique) entry with that key. -/
def eraseKey : AddressBook → String → AddressBook
  | [], _ => []
  | (k, v) :: t, name => if k = name then t else (k, v) :: eraseKey t name

/-- `AddressBook.delete`: membership test, then `del`; raises
`"Record not found."` when the name is absent (state unchanged). -/
def delete (book : AddressBook) (name : String) : Except String AddressBook :=
  if (find book name).isSome then .ok (eraseKey book name)
  else .error "Record not found."

/-- The loop body order of `AddressBook.get_upcoming_birthdays`:
records with a birthday contribute `days_to_birthday`; a record is
appended when the result is not `None` and `<= days`. -/
def upcomingAux (today : Date) (days : Int) : List (String × Record) → Except String (List Record)
  | [] => .ok []
  | (_, r) :: t =>
    match r.birthday with
    | none => upcomingAux today days t
    | some _ =>
      match days_to_birthday r today with
      | .error e => .error e
      | .ok db =>
        match upcomingAux today days t with
        | .error e => .error e
        | .ok rest =>
          match db with
          | some n => if n ≤ days then .ok (r :: rest) else .ok rest
          | none => .ok rest

/-- `AddressBook.get_upcoming_birthdays(days=7)` with `today` explicit. -/
def get_upcoming_birthdays (book : AddressBook) (today : Date) (days : Int) :
    Except String (List Record) :=
  upcomingAux today days book

/-- The phone-sequence invariant of C9: every stored phone value is a
string of exactly 10 digit characters. -/
def PhonesValid (r : Record) : Prop :=
  ∀ p ∈ r.phones, p.length = 10 ∧ p.data.all Char.isDigit = true

theorem validate_phone_ok_iff (s v : String) :
    validate_phone s = .ok v ↔ (s.length = 10 ∧ s.data.all Char.isDigit = true ∧ v = s) := by
  unfold validate_phone
  split
  next h => simp_all
  next h =>
    split
    next h2 => simp_all
    next h2 =>
      rw [not_not] at h2
      simp only [Except.ok.injEq]
      constructor
      · rintro rfl
        exact ⟨by omega, h2, rfl⟩
      · rintro ⟨-, -, rfl⟩
        rfl

theorem validate_phone_error_iff (s : String) :
    (∃ e, validate_phone s = .error e) ↔ ¬ (s.length = 10 ∧ s.data.all Char.isDigit = true) := by
  unfold validate_phone
  split
  · simp_all
  · split
    · simp_all
    · simp_all

set_option maxHeartbeats 1600000 in
theorem daysBeforeYear_succ (y : Nat) (hy : 1 ≤ y) :
    daysBeforeYear (y + 1) = daysBeforeYear y + (if isLeap y then 366 else 365) := by
  unfold daysBeforeYear isLeap
  obtain ⟨n, rfl⟩ : ∃ n, y = n + 1 := ⟨y - 1, by omega⟩
  simp only [Nat.add_sub_cancel]
  split
  next h =>
    rw [decide_eq_true_eq] at h
    omega
  next h =>
    rw [Bool.not_eq_true, decide_eq_false_iff_not] at h
    omega

theorem daysBeforeYear_mono (y1 y2 : Nat) (h1 : 1 ≤ y1) (h12 : y1 ≤ y2) :
    daysBeforeYear y1 ≤ daysBeforeYear y2 := by
  induction y2 with
  | zero => omega
  | succ k ih =>
    rcases Nat.lt_or_ge y1 (k + 1) with hlt | hge
    · have hk : 1 ≤ k := by omega
      have hstep := daysBeforeYear_succ k hk
      have hih := ih (by omega)
      split at hstep <;> omega
    · have heq : y1 = k + 1 := by omega
      rw [heq]

theorem inYear_le (dt : Date) (hv : validDate dt = true) :
    daysBeforeMonth dt.year dt.month + dt.day ≤ (if isLeap dt.year then 366 else 365) := by
  unfold validDate at hv
  rw [decide_eq_true_eq] at hv
  obtain ⟨-, -, hm1, hm12, -, hd⟩ := hv
  have hdim := hd
  unfold daysBeforeMonth daysBeforeMonthTable
  unfold daysInMonth at hdim
  interval_cases h : dt.month <;> by_cases hl : isLeap dt.year = true <;>
    simp only [hl] <;> simp_all <;> omega

theorem daysBeforeMonth_succ (y m : Nat) (h1 : 1 ≤ m) (h2 : m ≤ 11) :
    daysBeforeMonth y (m + 1) = daysBeforeMonth y m + daysInMonth y m := by
  interval_cases m <;> by_cases hl : isLeap y = true <;>
    simp [daysBeforeMonth, daysBeforeMonthTable, daysInMonth, hl]

theorem daysBeforeMonth_mono (y m1 m2 : Nat) (h1 : 1 ≤ m1) (h : m1 ≤ m2) (h2 : m2 ≤ 12) :
    daysBeforeMonth y m1 ≤ daysBeforeMonth y m2 := by
  induction m2 with
  | zero => omega
  | succ k ih =>
    rcases Nat.lt_or_ge m1 (k + 1) with hlt | hge
    · have hstep := daysBeforeMonth_succ y k (by omega) (by omega)
      have hih := ih (by omega) (by omega)
      omega
    · have heq : m1 = k + 1 := by omega
      rw [heq]

theorem inYear_lt (y ma da mb db : Nat) (hma1 : 1 ≤ ma) (hmb2 : mb ≤ 12)
    (hda : da ≤ daysInMonth y ma) (hdb1 : 1 ≤ db) (h : ma < mb) :
    daysBeforeMonth y ma + da < daysBeforeMonth y mb + db := by
  have hstep := daysBeforeMonth_succ y ma (by omega) (by omega)
  have hmono := daysBeforeMonth_mono y (ma + 1) mb (by omega) (by omega) (by omega)
  omega

theorem toOrdinal_lt_of_dateLt (a b : Date) (ha : validDate a = true)
    (hb : validDate b = true) (h : dateLt a b = true) : toOrdinal a < toOrdinal b := by
  have ha' := ha
  have hb' := hb
  unfold validDate at ha' hb'
  rw [decide_eq_true_eq] at ha' hb'
  unfold dateLt at h
  rw [decide_eq_true_eq] at h
  unfold toOrdinal
  rcases h with hy | ⟨hy, hm | ⟨hm, hd⟩⟩
  · have h1 : daysBeforeMonth a.year a.month + a.day ≤ (if isLeap a.year then 366 else 365) :=
      inYear_le a ha
    have h2 : daysBeforeYear (a.year + 1) =
        daysBeforeYear a.year + (if isLeap a.year then 366 else 365) :=
      daysBeforeYear_succ a.year (by omega)
    have h3 : daysBeforeYear (a.year + 1) ≤ daysBeforeYear b.year :=
      daysBeforeYear_mono _ _ (by omega) (by omega)
    have h4 : 1 ≤ b.day := by omega
    split at h1 <;> split at h2 <;> omega
  · have h1 : daysBeforeMonth a.year a.month + a.day <
        daysBeforeMonth a.year b.month + b.day :=
      inYear_lt a.year a.month a.day b.month b.day (by omega) (by omega) (by omega)
        (by omega) hm
    rw [hy] at h1 ⊢
    omega
  · rw [hy, hm]
    omega

theorem dateLt_trichotomy (a b : Date) (h : dateLt a b = false) :
    a = b ∨ dateLt b a = true := by
  unfold dateLt at *
  rw [decide_eq_false_iff_not] at h
  rw [decide_eq_true_eq]
  by_cases hy : a.year = b.year
  · by_cases hm : a.month = b.month
    · by_cases hd : a.day = b.day
      · left
        cases a
        cases b
        simp_all
      · right
        omega
    · right
      omega
  · right
    omega

theorem find?_first (l1 l2 : List String) (s : String) (h : s ∉ l1) :
    (l1 ++ s :: l2).find? (fun p => p == s) = some s := by
  induction l1 with
  | nil => simp [List.find?]
  | cons x t ih =>
    have hx : (x == s) = false := by
      simp only [beq_eq_false_iff_ne, ne_eq]
      intro hxe
      exact h (by simp [hxe])
    simp only [List.cons_append, List.find?, hx]
    exact ih (fun hm => h (List.mem_cons_of_mem _ hm))

theorem find_phone_ok_of_mem (r : Record) (s : String) (l1 l2 : List String)
    (hsplit : r.phones = l1 ++ s :: l2) (h : s ∉ l1) : find_phone r s = .ok s := by
  unfold find_phone
  rw [hsplit, find?_first l1 l2 s h]

theorem find_phone_error_of_not_mem (r : Record) (s : String) (h : s ∉ r.phones) :
    find_phone r s = .error "Phone number not found." := by
  unfold find_phone
  have : r.phones.find? (fun p => p == s) = none := by
    rw [List.find?_eq_none]
    intro x hx hbeq
    exact h (by rwa [eq_of_beq hbeq] at hx)
  rw [this]

theorem mem_split_first (l : List String) (s : String) (h : s ∈ l) :
    ∃ l1 l2, l = l1 ++ s :: l2 ∧ s ∉ l1 := by
  induction l with
  | nil => cases h
  | cons x t ih =>
    by_cases hx : x = s
    · exact ⟨[], t, by simp [hx], by simp⟩
    · have hm : s ∈ t := by
        cases h with
        | head => exact absurd rfl hx
        | tail _ hm => exact hm
      obtain ⟨l1, l2, heq, hn⟩ := ih hm
      exact ⟨x :: l1, l2, by simp [heq], by
        intro hmem
        cases hmem with
        | head => exact hx rfl
        | tail _ hmm => exact hn hmm⟩

theorem findIdx_first (l1 l2 : List String) (s : String) (h : s ∉ l1) :
    (l1 ++ s :: l2).findIdx (fun p => p == s) = l1.length := by
  induction l1 with
  | nil => simp [List.findIdx_cons]
  | cons x t ih =>
    have hx : (x == s) = false := by
      simp only [beq_eq_false_iff_ne, ne_eq]
      intro hxe
      exact h (by simp [hxe])
    simp only [List.cons_append, List.findIdx_cons, hx, cond_false, List.length_cons]
    rw [ih (fun hm => h (List.mem_cons_of_mem _ hm))]

theorem set_at_length (l1 l2 : List String) (x v : String) :
    (l1 ++ x :: l2).set l1.length v = l1 ++ v :: l2 := by
  induction l1 with
  | nil => rfl
  | cons y t ih => simp [List.set, ih]

theorem erase_first (l1 l2 : List String) (s : String) (h : s ∉ l1) :
    (l1 ++ s :: l2).erase s = l1 ++ l2 := by
  induction l1 with
  | nil => simp
  | cons x t ih =>
    have hx : (x == s) = false := by
      simp only [beq_eq_false_iff_ne, ne_eq]
      intro hxe
      exact h (by simp [hxe])
    have hnt : s ∉ t := fun hm => h (List.mem_cons_of_mem _ hm)
    simp [List.erase_cons, hx, ih hnt]

/-- C1: `validatePhone` (the `Phone` constructor) fails exactly when the
input's length is not 10 or some character is not a digit, and succeeds
returning the input unchanged on every 10-digit numeric string. -/
theorem validate_phone_spec (s : String) :
    ((∃ e, validate_phone s = .error e) ↔ ¬ (s.length = 10 ∧ s.data.all Char.isDigit = true)) ∧
    (s.length = 10 → s.data.all Char.isDigit = true → validate_phone s = .ok s) := by
  refine ⟨validate_phone_error_iff s, fun h1 h2 => ?_⟩
  rw [validate_phone_ok_iff]
  exact ⟨h1, h2, rfl⟩

/-- Witness for C1 at concrete inputs. -/
theorem validate_phone_spec_witness :
    validate_phone "0123456789" = .ok "0123456789" ∧
    (∃ e, validate_phone "123" = .error e) ∧
    (∃ e, validate_phone "12345678a9" = .error e) :=
  ⟨(validate_phone_spec "0123456789").2 (by decide) (by decide),
   (validate_phone_spec "123").1.mpr (by decide),
   (validate_phone_spec "12345678a9").1.mpr (by decide)⟩

/-- C3: `editPhone` fails with NotFound when the old number is absent,
propagates the validation error when the new number is invalid (in both
failure cases no record is produced, so the caller's phone sequence is
untouched — the embedding returns the mutated record only on success,
matching Python where the exception is raised before any mutation),
and on success replaces the first entry equal to the old number in
place, leaving every other entry, the name and the birthday unchanged. -/
theorem edit_phone_spec :
    (∀ r old new, old ∉ r.phones →
      edit_phone r old new = .error "Phone number not found.") ∧
    (∀ r old new e, old ∈ r.phones → validate_phone new = .error e →
      edit_phone r old new = .error e) ∧
    (∀ r old new l1 l2, r.phones = l1 ++ old :: l2 → old ∉ l1 →
      validate_phone new = .ok new →
      edit_phone r old new = .ok { r with phones := l1 ++ new :: l2 }) := by
  refine ⟨fun r old new h => ?_, fun r old new e hmem hval => ?_, ?_⟩
  · unfold edit_phone
    rw [find_phone_error_of_not_mem r old h]
  · obtain ⟨l1, l2, hsplit, hn⟩ := mem_split_first r.phones old hmem
    unfold edit_phone
    rw [find_phone_ok_of_mem r old l1 l2 hsplit hn, hval]
  · intro r old new l1 l2 hsplit hn hval
    unfold edit_phone
    rw [find_phone_ok_of_mem r old l1 l2 hsplit hn, hval]
    dsimp only
    rw [hsplit, findIdx_first l1 l2 old hn, set_at_length l1 l2 old new]

/-- Witness for C3 at concrete inputs. -/
theorem edit_phone_spec_witness :
    edit_phone ⟨"A", ["1111111111"], none⟩ "2222222222" "3333333333" =
      .error "Phone number not found." ∧
    edit_phone ⟨"A", ["1111111111"], none⟩ "1111111111" "123" =
      .error "The phone number must contain 10 digits" ∧
    edit_phone ⟨"A", ["0000000000", "1111111111", "1111111111"], none⟩
      "1111111111" "2222222222" =
      .ok ⟨"A", ["0000000000", "2222222222", "1111111111"], none⟩ :=
  ⟨edit_phone_spec.1 ⟨"A", ["1111111111"], none⟩ "2222222222" "3333333333" (by decide),
   edit_phone_spec.2.1 ⟨"A", ["1111111111"], none⟩ "1111111111" "123"
     "The phone number must contain 10 digits" (by decide) rfl,
   edit_phone_spec.2.2 ⟨"A", ["0000000000", "1111111111", "1111111111"], none⟩
     "1111111111" "2222222222" ["0000000000"] ["1111111111"] rfl (by decide) rfl⟩

/-- C8: `removePhone` fails with NotFound when no stored phone equals
the argument (no record produced, sequence untouched); otherwise it
removes exactly the first matching entry, later duplicates included
unchanged. -/
theorem remove_phone_spec :
    (∀ r s, s ∉ r.phones → remove_phone r s = .error "Phone number not found.") ∧
    (∀ r s l1 l2, r.phones = l1 ++ s :: l2 → s ∉ l1 →
      remove_phone r s = .ok { r with phones := l1 ++ l2 }) := by
  refine ⟨fun r s h => ?_, fun r s l1 l2 hsplit hn => ?_⟩
  · unfold remove_phone
    rw [find_phone_error_of_not_mem r s h]
  · unfold remove_phone
    rw [find_phone_ok_of_mem r s l1 l2 hsplit hn]
    dsimp only
    rw [hsplit, erase_first l1 l2 s hn]

/-- Witness for C8 at concrete inputs. -/
theorem remove_phone_spec_witness :
    remove_phone ⟨"A", ["1111111111"], none⟩ "2222222222" =
      .error "Phone number not found." ∧
    remove_phone ⟨"A", ["0000000000", "1111111111", "1111111111"], none⟩ "1111111111" =
      .ok ⟨"A", ["0000000000", "1111111111"], none⟩ :=
  ⟨remove_phone_spec.1 ⟨"A", ["1111111111"], none⟩ "2222222222" (by decide),
   remove_phone_spec.2 ⟨"A", ["0000000000", "1111111111", "1111111111"], none⟩
     "1111111111" ["0000000000"] ["1111111111"] rfl (by decide)⟩

/-- C9 (implicit invariant): every entry of a record's phone sequence is
a validated 10-digit string; a fresh record satisfies this, and
`addPhone`, `editPhone` and `removePhone` all preserve it, since a phone
can only enter the sequence through `Phone` construction. -/
theorem phones_valid_invariant :
    (∀ name, PhonesValid (Record.make name)) ∧
    (∀ r s r', PhonesValid r → add_phone r s = .ok r' → PhonesValid r') ∧
    (∀ r old new r', PhonesValid r → edit_phone r old new = .ok r' → PhonesValid r') ∧
    (∀ r s r', PhonesValid r → remove_phone r s = .ok r' → PhonesValid r') := by
  refine ⟨fun name p hp => absurd hp (by simp [Record.make]), ?_, ?_, ?_⟩
  · intro r s r' hr hok
    unfold add_phone at hok
    rcases hv : validate_phone s with e | v
    · rw [hv] at hok
      cases hok
    · rw [hv] at hok
      cases hok
      obtain ⟨h10, hdig, rfl⟩ := (validate_phone_ok_iff s v).mp hv
      intro p hp
      rcases List.mem_append.mp hp with hin | hin
      · exact hr p hin
      · rw [List.mem_singleton.mp hin]
        exact ⟨h10, hdig⟩
  · intro r old new r' hr hok
    unfold edit_phone at hok
    rcases hf : find_phone r old with e | f
    · rw [hf] at hok
      cases hok
    · rw [hf] at hok
      rcases hv : validate_phone new with e | v
      · rw [hv] at hok
        cases hok
      · rw [hv] at hok
        cases hok
        obtain ⟨h10, hdig, rfl⟩ := (validate_phone_ok_iff new v).mp hv
        intro p hp
        rcases List.mem_or_eq_of_mem_set hp with hin | rfl
        · exact hr p hin
        · exact ⟨h10, hdig⟩
  · intro r s r' hr hok
    unfold remove_phone at hok
    rcases hf : find_phone r s with e | f
    · rw [hf] at hok
      cases hok
    · rw [hf] at hok
      cases hok
      intro p hp
      exact hr p (List.mem_of_mem_erase hp)

/-- Witness for C9 at concrete inputs. -/
theorem phones_valid_invariant_witness :
    PhonesValid (Record.make "B") ∧ PhonesValid ⟨"B", ["0123456789"], none⟩ :=
  ⟨phones_valid_invariant.1 "B",
   phones_valid_invariant.2.1 (Record.make "B") "0123456789" ⟨"B", ["0123456789"], none⟩
     (phones_valid_invariant.1 "B") rfl⟩

theorem find_dictSet_self (book : AddressBook) (k : String) (v : Record) :
    find (dictSet book k v) k = some v := by
  induction book with
  | nil => simp [dictSet, find]
  | cons p t ih =>
    rcases p with ⟨k', v'⟩
    by_cases hk : k' = k
    · simp [dictSet, hk, find]
    · simp only [dictSet, hk, if_false]
      simpa [find, hk] using ih

theorem filter_nil_of_key_not_mem (l : AddressBook) (k : String)
    (h : k ∉ l.map Prod.fst) : l.filter (fun p => p.1 == k) = [] := by
  induction l with
  | nil => rfl
  | cons p t ih =>
    have hk : (p.1 == k) = false := by
      simp only [beq_eq_false_iff_ne, ne_eq]
      intro he
      exact h (by simp [he])
    simp only [List.filter_cons, hk]
    exact ih (fun hm => h (by simp_all))

theorem filter_dictSet (book : AddressBook) (k : String) (v : Record)
    (hnd : (book.map Prod.fst).Nodup) :
    (dictSet book k v).filter (fun p => p.1 == k) = [(k, v)] := by
  induction book with
  | nil => simp [dictSet]
  | cons p t ih =>
    rcases p with ⟨k', v'⟩
    simp only [List.map_cons, List.nodup_cons] at hnd
    by_cases hk : k' = k
    · simp only [dictSet, hk, if_true, List.filter_cons, beq_self_eq_true, if_pos]
      rw [filter_nil_of_key_not_mem t k (by rw [← hk]; exact hnd.1)]
    · simp only [dictSet, hk, if_false, List.filter_cons]
      have hkb : (k' == k) = false := by simp [hk]
      simp only [hkb]
      exact ih hnd.2

theorem keys_dictSet (book : AddressBook) (k : String) (v : Record) :
    (dictSet book k v).map Prod.fst =
      (if k ∈ book.map Prod.fst then book.map Prod.fst else book.map Prod.fst ++ [k]) := by
  induction book with
  | nil => simp [dictSet]
  | cons p t ih =>
    rcases p with ⟨k', v'⟩
    by_cases hk : k' = k
    · simp [dictSet, hk]
    · simp only [dictSet, hk, if_false, List.map_cons, ih]
      by_cases hm : k ∈ t.map Prod.fst <;>
        simp [hm, Ne.symm hk]

theorem keys_eraseKey (book : AddressBook) (k : String) :
    (eraseKey book k).map Prod.fst = (book.map Prod.fst).erase k := by
  induction book with
  | nil => rfl
  | cons p t ih =>
    rcases p with ⟨k', v'⟩
    by_cases hk : k' = k
    · simp [eraseKey, hk, List.erase_cons]
    · simp [eraseKey, hk, List.erase_cons, ih]

theorem find_key_first (l1 l2 : AddressBook) (name : String) (r : Record)
    (h : ∀ p ∈ l1, p.1 ≠ name) :
    find (l1 ++ (name, r) :: l2) name = some r := by
  induction l1 with
  | nil => simp [find]
  | cons p t ih =>
    rcases p with ⟨k', v'⟩
    have hk : k' ≠ name := h (k', v') (by simp)
    simp only [List.cons_append, find, hk, if_false]
    exact ih (fun q hq => h q (List.mem_cons_of_mem _ hq))

theorem eraseKey_append_first (l1 l2 : AddressBook) (name : String) (r : Record)
    (h : ∀ p ∈ l1, p.1 ≠ name) :
    eraseKey (l1 ++ (name, r) :: l2) name = l1 ++ l2 := by
  induction l1 with
  | nil => simp [eraseKey]
  | cons p t ih =>
    rcases p with ⟨k', v'⟩
    have hk : k' ≠ name := h (k', v') (by simp)
    simp only [List.cons_append, eraseKey, hk, if_false, List.cons.injEq, true_and]
    exact ih (fun q hq => h q (List.mem_cons_of_mem _ hq))

/-- C6: `addRecord` maps the record's name to the record; adding twice
under the same name leaves exactly one entry for that name holding the
second record (last-write-wins), and the at-most-one-record-per-name
invariant (key list has no duplicates) is preserved by both mutating
operations of the book, `addRecord` and `delete`. -/
theorem add_record_spec :
    (∀ book r, find (add_record book r) r.name = some r) ∧
    (∀ book r1 r2, (book.map Prod.fst).Nodup → r1.name = r2.name →
      (add_record (add_record book r1) r2).filter (fun p => p.1 == r2.name) =
        [(r2.name, r2)]) ∧
    (∀ book r, (book.map Prod.fst).Nodup → ((add_record book r).map Prod.fst).Nodup) ∧
    (∀ book name book', (book.map Prod.fst).Nodup → delete book name = .ok book' →
      (book'.map Prod.fst).Nodup) := by
  have hnodup : ∀ (book : AddressBook) (r : Record), (book.map Prod.fst).Nodup →
      ((add_record book r).map Prod.fst).Nodup := by
    intro book r hnd
    unfold add_record
    rw [keys_dictSet]
    split
    · exact hnd
    next hm => simpa using List.Nodup.append hnd (by simp) (by simpa using hm)
  refine ⟨fun book r => find_dictSet_self book r.name r, ?_, hnodup, ?_⟩
  · intro book r1 r2 hnd hname
    unfold add_record
    rw [← hname]
    exact filter_dictSet _ r1.name r2 (by simpa [add_record, hname] using hnodup book r1 hnd)
  · intro book name book' hnd hdel
    unfold delete at hdel
    split at hdel
    · cases hdel
      rw [keys_eraseKey]
      exact hnd.erase name
    · cases hdel

/-- Witness for C6 at concrete inputs. -/
theorem add_record_spec_witness :
    find (add_record [] ⟨"Alice", [], none⟩) "Alice" = some ⟨"Alice", [], none⟩ ∧
    (add_record (add_record [] ⟨"Alice", ["1111111111"], none⟩)
        ⟨"Alice", ["2222222222"], none⟩).filter (fun p => p.1 == "Alice") =
      [("Alice", ⟨"Alice", ["2222222222"], none⟩)] ∧
    ((add_record [("Bob", ⟨"Bob", [], none⟩)] ⟨"Alice", [], none⟩).map Prod.fst).Nodup :=
  ⟨add_record_spec.1 [] ⟨"Alice", [], none⟩,
   add_record_spec.2.1 [] ⟨"Alice", ["1111111111"], none⟩ ⟨"Alice", ["2222222222"], none⟩
     (by simp) rfl,
   add_record_spec.2.2.1 [("Bob", ⟨"Bob", [], none⟩)] ⟨"Alice", [], none⟩ (by simp)⟩

/-- C7: `delete` on a name that is absent fails with
`"Record not found."` — no new book is produced, so the contents are
unchanged — and on a present name removes exactly that entry,
leaving every other entry in place. -/
theorem delete_spec :
    (∀ book name, find book name = none → delete book name = .error "Record not found.") ∧
    (∀ (l1 l2 : AddressBook) (name : String) (r : Record), (∀ p ∈ l1, p.1 ≠ name) →
      delete (l1 ++ (name, r) :: l2) name = .ok (l1 ++ l2)) := by
  refine ⟨fun book name h => ?_, fun l1 l2 name r h => ?_⟩
  · unfold delete
    rw [h]
    rfl
  · unfold delete
    rw [find_key_first l1 l2 name r h, eraseKey_append_first l1 l2 name r h]
    rfl

/-- Witness for C7 at concrete inputs. -/
theorem delete_spec_witness :
    delete [("Bob", ⟨"Bob", [], none⟩)] "Alice" = .error "Record not found." ∧
    delete [("Bob", ⟨"Bob", [], none⟩), ("Alice", ⟨"Alice", [], none⟩),
        ("Eve", ⟨"Eve", [], none⟩)] "Alice" =
      .ok [("Bob", ⟨"Bob", [], none⟩), ("Eve", ⟨"Eve", [], none⟩)] :=
  ⟨delete_spec.1 [("Bob", ⟨"Bob", [], none⟩)] "Alice" rfl,
   delete_spec.2 [("Bob", ⟨"Bob", [], none⟩)] [("Eve", ⟨"Eve", [], none⟩)] "Alice"
     ⟨"Alice", [], none⟩ (by decide)⟩

theorem upcomingAux_ok (today : Date) (days : Int) (l : List (String × Record))
    (out : List Record) (h : upcomingAux today days l = .ok out) :
    out = (l.map Prod.snd).filter (fun r => r.birthday.isSome &&
      match days_to_birthday r today with
      | .ok (some n) => decide (n ≤ days)
      | _ => false) := by
  induction l generalizing out with
  | nil =>
    cases h
    rfl
  | cons p t ih =>
    rcases p with ⟨k, r⟩
    rw [upcomingAux] at h
    rcases hb : r.birthday with _ | b
    · rw [hb] at h
      dsimp only at h
      have hdb : days_to_birthday r today = .ok none := by
        unfold days_to_birthday
        rw [hb]
      simp [List.filter_cons, hb, hdb, ih _ h]
    · rw [hb] at h
      dsimp only at h
      rcases hd : days_to_birthday r today with e | db
      · rw [hd] at h
        dsimp only at h
        cases h
      · rw [hd] at h
        dsimp only at h
        rcases ht : upcomingAux today days t with e | rest
        · rw [ht] at h
          dsimp only at h
          cases h
        · rw [ht] at h
          dsimp only at h
          rcases db with _ | n
          · dsimp only at h
            cases h
            simp [List.filter_cons, hb, hd, ih _ ht]
          · dsimp only at h
            by_cases hn : n ≤ days
            · rw [if_pos hn] at h
              cases h
              simp [List.filter_cons, hb, hd, hn, ih _ ht]
            · rw [if_neg hn] at h
              cases h
              simp [List.filter_cons, hb, hd, hn, ih _ ht]

/-- C5: whenever `get_upcoming_birthdays` returns a list, that list is
exactly the records (in book order) that have a birthday set and whose
`days_to_birthday` is defined and at most `days`; in the concrete book
below the record at exactly 7 days and the record whose birthday is
today (0 days) are returned, while the record at 8 days is not. -/
theorem get_upcoming_birthdays_spec :
    (∀ book today days out, get_upcoming_birthdays book today days = .ok out →
      out = (book.map Prod.snd).filter (fun r => r.birthday.isSome &&
        match days_to_birthday r today with
        | .ok (some n) => decide (n ≤ days)
        | _ => false)) ∧
    days_to_birthday ⟨"P", [], some ⟨1990, 3, 17⟩⟩ ⟨2024, 3, 10⟩ = .ok (some 7) ∧
    days_to_birthday ⟨"Q", [], some ⟨1990, 3, 18⟩⟩ ⟨2024, 3, 10⟩ = .ok (some 8) ∧
    days_to_birthday ⟨"Z", [], some ⟨1990, 3, 10⟩⟩ ⟨2024, 3, 10⟩ = .ok (some 0) ∧
    get_upcoming_birthdays
        [("P", ⟨"P", [], some ⟨1990, 3, 17⟩⟩), ("Q", ⟨"Q", [], some ⟨1990, 3, 18⟩⟩),
         ("Z", ⟨"Z", [], some ⟨1990, 3, 10⟩⟩)] ⟨2024, 3, 10⟩ 7 =
      .ok [⟨"P", [], some ⟨1990, 3, 17⟩⟩, ⟨"Z", [], some ⟨1990, 3, 10⟩⟩] :=
  ⟨fun book today days out h => upcomingAux_ok today days book out h, rfl, rfl, rfl, rfl⟩

/-- Witness for C5 at concrete inputs (the quantified part applied to
the concrete book). -/
theorem get_upcoming_birthdays_spec_witness :
    ([⟨"P", [], some ⟨1990, 3, 17⟩⟩, ⟨"Z", [], some ⟨1990, 3, 10⟩⟩] : List Record) =
      ([("P", (⟨"P", [], some ⟨1990, 3, 17⟩⟩ : Record)),
        ("Q", ⟨"Q", [], some ⟨1990, 3, 18⟩⟩),
        ("Z", ⟨"Z", [], some ⟨1990, 3, 10⟩⟩)].map Prod.snd).filter
        (fun r => r.birthday.isSome &&
          match days_to_birthday r ⟨2024, 3, 10⟩ with
          | .ok (some n) => decide (n ≤ (7 : Int))
          | _ => false) :=
  get_upcoming_birthdays_spec.1
    [("P", ⟨"P", [], some ⟨1990, 3, 17⟩⟩), ("Q", ⟨"Q", [], some ⟨1990, 3, 18⟩⟩),
     ("Z", ⟨"Z", [], some ⟨1990, 3, 10⟩⟩)] ⟨2024, 3, 10⟩ 7
    [⟨"P", [], some ⟨1990, 3, 17⟩⟩, ⟨"Z", [], some ⟨1990, 3, 10⟩⟩] rfl

theorem daysInMonth_indep (y1 y2 m : Nat) (hm : m ≠ 2) :
    daysInMonth y1 m = daysInMonth y2 m := by
  unfold daysInMonth
  by_cases h1 : m = 1 <;> simp [h1, hm]

theorem daysInMonth_feb_bounds (y : Nat) :
    28 ≤ daysInMonth y 2 ∧ daysInMonth y 2 ≤ 29 := by
  unfold daysInMonth
  norm_num
  split <;> omega

theorem day_le_daysInMonth_any (b : Date) (hvb : validDate b = true)
    (h29 : ¬ (b.month = 2 ∧ b.day = 29)) (y : Nat) : b.day ≤ daysInMonth y b.month := by
  unfold validDate at hvb
  rw [decide_eq_true_eq] at hvb
  obtain ⟨-, -, hm1, hm12, hd1, hd⟩ := hvb
  by_cases hm : b.month = 2
  · have hby := daysInMonth_feb_bounds b.year
    have hyy := daysInMonth_feb_bounds y
    rw [hm] at hd ⊢
    have : b.day ≠ 29 := fun hd29 => h29 ⟨hm, hd29⟩
    omega
  · rw [daysInMonth_indep y b.year b.month hm]
    exact hd

theorem replaceYear_ok (b : Date) (y : Nat) (h1 : 1 ≤ y) (h2 : y ≤ 9999)
    (hm : 1 ≤ b.month ∧ b.month ≤ 12) (hd : 1 ≤ b.day ∧ b.day ≤ daysInMonth y b.month) :
    replaceYear b y = .ok ⟨y, b.month, b.day⟩ := by
  unfold replaceYear
  rw [if_neg (not_not_intro ⟨h1, h2⟩), if_neg (not_not_intro hm), if_neg (not_not_intro hd)]

/-- C4 (amended): `daysToBirthday` returns `none` exactly for records
without a birthday; for a record with a (valid) birthday that is not
February 29, and a valid `today` whose successor year stays within the
supported range, it returns the non-negative number of days from
`today` to the next occurrence of the birthday's (month, day) — this
year's occurrence if it is on or after `today`, else next year's — and
on the spec's concrete examples it returns 5 (today 10.03.2024,
birthday 15.03.1990) and the day distance to 15.03.2025
(today 20.03.2024). -/
theorem days_to_birthday_spec :
    (∀ r today, r.birthday = none → days_to_birthday r today = .ok none) ∧
    (∀ r today b, r.birthday = some b → validDate today = true → validDate b = true →
      ¬ (b.month = 2 ∧ b.day = 29) → today.year + 1 ≤ 9999 →
      ∃ n : Int, days_to_birthday r today = .ok (some n) ∧ 0 ≤ n ∧
        n = (if dateLt ⟨today.year, b.month, b.day⟩ today then
              (toOrdinal ⟨today.year + 1, b.month, b.day⟩ : Int) - (toOrdinal today : Int)
             else (toOrdinal ⟨today.year, b.month, b.day⟩ : Int) - (toOrdinal today : Int))) ∧
    days_to_birthday ⟨"A", [], some ⟨1990, 3, 15⟩⟩ ⟨2024, 3, 10⟩ = .ok (some 5) ∧
    days_to_birthday ⟨"A", [], some ⟨1990, 3, 15⟩⟩ ⟨2024, 3, 20⟩ =
      .ok (some ((toOrdinal ⟨2025, 3, 15⟩ : Int) - (toOrdinal ⟨2024, 3, 20⟩ : Int))) := by
  refine ⟨fun r today hb => by unfold days_to_birthday; rw [hb], ?_, rfl, rfl⟩
  intro r today b hb hvt hvb h29 hy
  have hvt' := hvt
  unfold validDate at hvt'
  rw [decide_eq_true_eq] at hvt'
  have hvb' := hvb
  unfold validDate at hvb'
  rw [decide_eq_true_eq] at hvb'
  have hdany := day_le_daysInMonth_any b hvb h29
  have hr1 : replaceYear b today.year = .ok ⟨today.year, b.month, b.day⟩ :=
    replaceYear_ok b today.year (by omega) (by omega) ⟨by omega, by omega⟩
      ⟨by omega, hdany today.year⟩
  have hvnb : validDate ⟨today.year, b.month, b.day⟩ = true := by
    unfold validDate
    rw [decide_eq_true_eq]
    dsimp only
    exact ⟨by omega, by omega, by omega, by omega, by omega, hdany today.year⟩
  unfold days_to_birthday
  rw [hb]
  dsimp only
  rw [hr1]
  dsimp only
  by_cases hlt : dateLt ⟨today.year, b.month, b.day⟩ today = true
  · rw [if_pos hlt]
    have hr2 : replaceYear ⟨today.year, b.month, b.day⟩ (today.year + 1) =
        .ok ⟨today.year + 1, b.month, b.day⟩ :=
      replaceYear_ok ⟨today.year, b.month, b.day⟩ (today.year + 1) (by omega) hy
        ⟨by dsimp only; omega, by dsimp only; omega⟩
        ⟨by dsimp only; omega, hdany (today.year + 1)⟩
    rw [hr2]
    dsimp only
    refine ⟨_, rfl, ?_, by rw [if_pos hlt]⟩
    have hlt2 : dateLt today ⟨today.year + 1, b.month, b.day⟩ = true := by
      unfold dateLt
      rw [decide_eq_true_eq]
      left
      dsimp only
      omega
    have hvnb2 : validDate ⟨today.year + 1, b.month, b.day⟩ = true := by
      unfold validDate
      rw [decide_eq_true_eq]
      dsimp only
      exact ⟨by omega, hy, by omega, by omega, by omega, hdany (today.year + 1)⟩
    have hord := toOrdinal_lt_of_dateLt today ⟨today.year + 1, b.month, b.day⟩ hvt hvnb2 hlt2
    omega
  · rw [if_neg hlt]
    refine ⟨_, rfl, ?_, by rw [if_neg hlt]⟩
    rw [Bool.not_eq_true] at hlt
    rcases dateLt_trichotomy ⟨today.year, b.month, b.day⟩ today hlt with heq | hgt
    · rw [heq]
      omega
    · have hord := toOrdinal_lt_of_dateLt today ⟨today.year, b.month, b.day⟩ hvt hvnb hgt
      omega

/-- Witness for C4 (amended) at concrete inputs. -/
theorem days_to_birthday_spec_witness :
    ∃ n : Int, days_to_birthday ⟨"A", [], some ⟨1990, 3, 15⟩⟩ ⟨2024, 3, 10⟩ = .ok (some n) ∧
      0 ≤ n ∧
      n = (if dateLt ⟨2024, 3, 15⟩ ⟨2024, 3, 10⟩ then
            (toOrdinal ⟨2025, 3, 15⟩ : Int) - (toOrdinal ⟨2024, 3, 10⟩ : Int)
           else (toOrdinal ⟨2024, 3, 15⟩ : Int) - (toOrdinal ⟨2024, 3, 10⟩ : Int)) :=
  days_to_birthday_spec.2.1 ⟨"A", [], some ⟨1990, 3, 15⟩⟩ ⟨2024, 3, 10⟩ ⟨1990, 3, 15⟩
    rfl (by decide) (by decide) (by decide) (by decide)

/-- C4 counterexample: a record with its birthday set (to February 29)
for which `daysToBirthday` raises instead of returning a day count,
refuting the unconditional "otherwise it returns the non-negative
number of days" reading. -/
theorem days_to_birthday_counterexample :
    (⟨"C", [], some ⟨2020, 2, 29⟩⟩ : Record).birthday.isSome = true ∧
    validDate ⟨2023, 1, 10⟩ = true ∧
    days_to_birthday ⟨"C", [], some ⟨2020, 2, 29⟩⟩ ⟨2023, 1, 10⟩ =
      .error "day is out of range for month" :=
  ⟨rfl, by decide, rfl⟩

/-- C10: for every record whose birthday is February 29 and every
`today` in a non-leap year, `daysToBirthday` raises a `ValueError`
(the year replacement builds an invalid date) instead of returning a
number, so the operation is not total on records with a birthday. -/
theorem days_to_birthday_feb29_fails :
    ∀ r b today, r.birthday = some b → b.month = 2 → b.day = 29 →
      isLeap today.year = false → ∃ e, days_to_birthday r today = .error e := by
  intro r b today hb hm hd hl
  unfold days_to_birthday
  rw [hb]
  dsimp only
  unfold replaceYear
  by_cases hy : ¬ (1 ≤ today.year ∧ today.year ≤ 9999)
  · rw [if_pos hy]
    exact ⟨_, rfl⟩
  · rw [if_neg hy, if_neg (not_not_intro ⟨by omega, by omega⟩)]
    have hdim : daysInMonth today.year b.month = 28 := by
      rw [hm]
      unfold daysInMonth
      simp [hl]
    rw [if_pos (by rw [hdim, hd]; omega)]
    exact ⟨_, rfl⟩

/-- Witness for C10 at concrete inputs. -/
theorem days_to_birthday_feb29_fails_witness :
    ∃ e, days_to_birthday ⟨"D", [], some ⟨2020, 2, 29⟩⟩ ⟨2023, 3, 1⟩ = .error e :=
  days_to_birthday_feb29_fails ⟨"D", [], some ⟨2020, 2, 29⟩⟩ ⟨2020, 2, 29⟩ ⟨2023, 3, 1⟩
    rfl rfl rfl (by decide)

theorem isDigit_toNat (c : Char) (h : c.isDigit = true) : 48 ≤ c.toNat ∧ c.toNat ≤ 57 := by
  unfold Char.isDigit at h
  simp only [Bool.and_eq_true, decide_eq_true_eq] at h
  exact ⟨h.1, h.2⟩

theorem digitVal_le_9 (c : Char) (h : c.isDigit = true) : digitVal c ≤ 9 := by
  have := isDigit_toNat c h
  unfold digitVal
  omega

theorem isDigit_ne_space (c : Char) (h : c.isDigit = true) : c ≠ ' ' := by
  intro he
  rw [he] at h
  exact absurd h (by decide)

theorem digitsToNatAux_nil (acc : Nat) : digitsToNatAux acc [] = acc := rfl

theorem digitsToNatAux_cons (acc : Nat) (c : Char) (t : List Char) :
    digitsToNatAux acc (c :: t) = digitsToNatAux (10 * acc + digitVal c) t := rfl

theorem digitsToNat_space (c : Char) : digitsToNat [' ', c] = digitVal c := by
  show 10 * digitVal ' ' + digitVal c = digitVal c
  have h0 : digitVal ' ' = 0 := by decide
  rw [h0]
  omega

theorem digitsToNatAux_lt (l : List Char) (h : ∀ c ∈ l, c.isDigit = true) :
    ∀ acc, digitsToNatAux acc l < (acc + 1) * 10 ^ l.length := by
  induction l with
  | nil =>
    intro acc
    rw [digitsToNatAux_nil]
    simp
  | cons c t ih =>
    intro acc
    have hc : digitVal c ≤ 9 := digitVal_le_9 c (h c (by simp))
    have ht := ih (fun x hx => h x (by simp [hx])) (10 * acc + digitVal c)
    show digitsToNatAux (10 * acc + digitVal c) t < (acc + 1) * 10 ^ (t.length + 1)
    calc digitsToNatAux (10 * acc + digitVal c) t
        < (10 * acc + digitVal c + 1) * 10 ^ t.length := ht
      _ ≤ ((acc + 1) * 10) * 10 ^ t.length := Nat.mul_le_mul_right _ (by omega)
      _ = (acc + 1) * 10 ^ (t.length + 1) := by ring

theorem digitsToNat_lt (l : List Char) (h : ∀ c ∈ l, c.isDigit = true) :
    digitsToNat l < 10 ^ l.length := by
  cases l with
  | nil =>
    show (0 : Nat) < 10 ^ (0 : Nat)
    norm_num
  | cons c t =>
    have hc : digitVal c ≤ 9 := digitVal_le_9 c (h c (by simp))
    have ht := digitsToNatAux_lt t (fun x hx => h x (by simp [hx])) (digitVal c)
    show digitsToNatAux (digitVal c) t < 10 ^ (t.length + 1)
    calc digitsToNatAux (digitVal c) t
        < (digitVal c + 1) * 10 ^ t.length := ht
      _ ≤ 10 * 10 ^ t.length := Nat.mul_le_mul_right _ (by omega)
      _ = 10 ^ (t.length + 1) := by ring

theorem dayTokenP_val (a : List Char) (h : dayTokenP a) :
    1 ≤ digitsToNat a ∧ digitsToNat a ≤ 31 := by
  rcases h with ⟨-, -, h1, h2⟩ | ⟨c, rfl, hc, h1⟩
  · exact ⟨h1, h2⟩
  · rw [digitsToNat_space]
    have := digitVal_le_9 c hc
    exact ⟨h1, by omega⟩

theorem yearTokenP_val (c : List Char) (h : yearTokenP c) : digitsToNat c ≤ 9999 := by
  have := digitsToNat_lt c h.2
  rw [h.1] at this
  norm_num at this
  omega

theorem takeWhile_digits (a r : List Char) (ha : ∀ c ∈ a, c.isDigit = true) :
    (a ++ '.' :: r).takeWhile Char.isDigit = a ∧
    (a ++ '.' :: r).dropWhile Char.isDigit = '.' :: r := by
  induction a with
  | nil =>
    have hdot : ('.' : Char).isDigit = false := by decide
    simp [List.takeWhile_cons, List.dropWhile_cons, hdot]
  | cons x t ih =>
    have hx : x.isDigit = true := ha x (by simp)
    have iht := ih (fun c hc => ha c (by simp [hc]))
    simp [List.takeWhile_cons, List.dropWhile_cons, hx, iht.1, iht.2]

theorem parseDMYTail_some_iff (a rest1 : List Char) (d m y : Nat) :
    parseDMYTail a rest1 = some (d, m, y) ↔
      ∃ b c, rest1 = '.' :: (b ++ '.' :: c) ∧ dayTokenP a ∧ monthTokenP b ∧ yearTokenP c ∧
        d = digitsToNat a ∧ m = digitsToNat b ∧ y = digitsToNat c := by
  constructor
  · intro h
    cases rest1 with
    | nil => simp [parseDMYTail] at h
    | cons c1 rest2 =>
      simp only [parseDMYTail] at h
      by_cases h1 : c1 = '.'
      · subst h1
        rw [if_pos rfl] at h
        rcases hdw : rest2.dropWhile Char.isDigit with _ | ⟨c2, rest4⟩
        · rw [hdw] at h
          exact absurd h (by simp)
        · rw [hdw] at h
          dsimp only at h
          by_cases h2 : c2 = '.'
          · subst h2
            rw [if_pos rfl] at h
            split at h
            next hcond =>
              injection h with h'
              obtain ⟨hd, hm, hy⟩ : digitsToNat a = d ∧
                  digitsToNat (rest2.takeWhile Char.isDigit) = m ∧
                  digitsToNat rest4 = y := by simpa using h'
              refine ⟨rest2.takeWhile Char.isDigit, rest4, ?_, hcond.1, hcond.2.1,
                hcond.2.2, hd.symm, hm.symm, hy.symm⟩
              have hsplit : rest2 = rest2.takeWhile Char.isDigit ++ '.' :: rest4 := by
                conv_lhs => rw [← List.takeWhile_append_dropWhile (p := Char.isDigit)
                  (l := rest2)]
                rw [hdw]
              rw [← hsplit]
            next hcond => exact absurd h (by simp)
          · rw [if_neg h2] at h
            exact absurd h (by simp)
      · rw [if_neg h1] at h
        exact absurd h (by simp)
  · rintro ⟨b, c, hrest, hda, hmb, hyc, hd, hm, hy⟩
    subst hrest
    have hb := takeWhile_digits b c hmb.2.1
    simp only [parseDMYTail]
    rw [if_pos trivial, hb.2]
    dsimp only
    rw [if_pos rfl, hb.1, if_pos ⟨hda, hmb, hyc⟩, hd, hm, hy]

theorem parseDMY_some_iff (cs : List Char) (d m y : Nat) :
    parseDMY cs = some (d, m, y) ↔
      ∃ a b c, cs = a ++ '.' :: (b ++ '.' :: c) ∧ dayTokenP a ∧ monthTokenP b ∧
        yearTokenP c ∧ d = digitsToNat a ∧ m = digitsToNat b ∧ y = digitsToNat c := by
  constructor
  · intro h
    cases cs with
    | nil => simp [parseDMY, parseDMYTail] at h
    | cons c0 t =>
      by_cases hc : c0 = ' '
      · subst hc
        simp only [parseDMY] at h
        rw [if_pos trivial] at h
        obtain ⟨b, c, hrest, hda, hmb, hyc, hd, hm, hy⟩ :=
          (parseDMYTail_some_iff _ _ d m y).mp h
        refine ⟨' ' :: t.takeWhile Char.isDigit, b, c, ?_, hda, hmb, hyc, hd, hm, hy⟩
        show ' ' :: t = (' ' :: t.takeWhile Char.isDigit) ++ '.' :: (b ++ '.' :: c)
        rw [List.cons_append]
        congr 1
        conv_lhs => rw [← List.takeWhile_append_dropWhile (p := Char.isDigit) (l := t)]
        rw [hrest]
      · simp only [parseDMY] at h
        rw [if_neg hc] at h
        obtain ⟨b, c, hrest, hda, hmb, hyc, hd, hm, hy⟩ :=
          (parseDMYTail_some_iff _ _ d m y).mp h
        refine ⟨(c0 :: t).takeWhile Char.isDigit, b, c, ?_, hda, hmb, hyc, hd, hm, hy⟩
        conv_lhs => rw [← List.takeWhile_append_dropWhile (p := Char.isDigit) (l := c0 :: t)]
        rw [hrest]
  · rintro ⟨a, b, c, heq, hda, hmb, hyc, hd, hm, hy⟩
    subst heq
    rcases hda with ⟨hlen, hdig, hv1, hv31⟩ | ⟨ch, rfl, hch, hch1⟩
    · obtain ⟨a0, a', rfl⟩ : ∃ a0 a', a = a0 :: a' := by
        cases a with
        | nil => simp at hlen
        | cons x xs => exact ⟨x, xs, rfl⟩
      have ha0 : a0.isDigit = true := hdig a0 (by simp)
      have hne : a0 ≠ ' ' := isDigit_ne_space a0 ha0
      have htw := takeWhile_digits (a0 :: a') (b ++ '.' :: c) hdig
      show parseDMY (a0 :: (a' ++ '.' :: (b ++ '.' :: c))) = some (d, m, y)
      simp only [parseDMY]
      rw [if_neg hne]
      rw [show a0 :: (a' ++ '.' :: (b ++ '.' :: c)) =
        (a0 :: a') ++ '.' :: (b ++ '.' :: c) from rfl, htw.1, htw.2]
      exact (parseDMYTail_some_iff _ _ d m y).mpr
        ⟨b, c, rfl, Or.inl ⟨hlen, hdig, hv1, hv31⟩, hmb, hyc, hd, hm, hy⟩
    · have htw2 := takeWhile_digits [ch] (b ++ '.' :: c) (by
        intro x hx
        rw [List.mem_singleton.mp hx]
        exact hch)
      show parseDMY (' ' :: (ch :: '.' :: (b ++ '.' :: c))) = some (d, m, y)
      simp only [parseDMY]
      rw [if_pos trivial]
      rw [show (ch :: '.' :: (b ++ '.' :: c)) = [ch] ++ '.' :: (b ++ '.' :: c) from rfl,
        htw2.1, htw2.2]
      exact (parseDMYTail_some_iff _ _ d m y).mpr
        ⟨b, c, rfl, Or.inr ⟨ch, rfl, hch, hch1⟩, hmb, hyc, hd, hm, hy⟩

/-- C2 (amended): `parseBirthday` accepts exactly the strings of the
form day `.` month `.` year in which the day token is one or two digits
with value 1–31 (or a space followed by a digit 1–9), the month token
is one or two digits with value 1–12, the year is exactly four digits
with value at least 1, and the day is valid for that month and year;
every accepted string denotes a valid calendar date (so `29.02.2024` is
accepted and `29.02.2023` rejected), and every rejection carries the
error message naming the expected format `DD.MM.YYYY`.  In particular
strict two-digit `DD.MM.YYYY` dates are accepted, but so are one-digit
forms such as `5.3.2024`. -/
theorem validate_birthday_spec :
    (∀ s dt, validate_birthday s = .ok dt ↔
      (∃ a b c : List Char, s.data = a ++ '.' :: (b ++ '.' :: c) ∧
        dayTokenP a ∧ monthTokenP b ∧ yearTokenP c ∧
        dt = ⟨digitsToNat c, digitsToNat b, digitsToNat a⟩ ∧
        1 ≤ digitsToNat c ∧
        digitsToNat a ≤ daysInMonth (digitsToNat c) (digitsToNat b))) ∧
    (∀ s dt, validate_birthday s = .ok dt → validDate dt = true) ∧
    (∀ s e, validate_birthday s = .error e → e = "Invalid date format. Use DD.MM.YYYY") ∧
    validate_birthday "29.02.2024" = .ok ⟨2024, 2, 29⟩ ∧
    validate_birthday "29.02.2023" = .error "Invalid date format. Use DD.MM.YYYY" := by
  have main : ∀ s dt, validate_birthday s = .ok dt ↔
      (∃ a b c : List Char, s.data = a ++ '.' :: (b ++ '.' :: c) ∧
        dayTokenP a ∧ monthTokenP b ∧ yearTokenP c ∧
        dt = ⟨digitsToNat c, digitsToNat b, digitsToNat a⟩ ∧
        1 ≤ digitsToNat c ∧
        digitsToNat a ≤ daysInMonth (digitsToNat c) (digitsToNat b)) := by
    intro s dt
    unfold validate_birthday
    rcases hp : parseDMY s.data with _ | ⟨d', m', y'⟩
    · constructor
      · intro h
        exact absurd h (by simp)
      · rintro ⟨a, b, c, heq, hda, hmb, hyc, rfl, h1, h2⟩
        exfalso
        have hsome := (parseDMY_some_iff s.data (digitsToNat a) (digitsToNat b)
          (digitsToNat c)).mpr ⟨a, b, c, heq, hda, hmb, hyc, rfl, rfl, rfl⟩
        rw [hp] at hsome
        exact absurd hsome (by simp)
    · dsimp only
      split
      next hcond =>
        obtain ⟨a, b, c, heq, hda, hmb, hyc, hd, hm, hy⟩ :=
          (parseDMY_some_iff s.data d' m' y').mp hp
        constructor
        · intro h
          cases h
          exact ⟨a, b, c, heq, hda, hmb, hyc, by rw [hy, hm, hd],
            by rw [← hy]; exact hcond.1, by rw [← hy, ← hm, ← hd]; exact hcond.2⟩
        · rintro ⟨a2, b2, c2, heq2, hda2, hmb2, hyc2, rfl, h1, h2⟩
          have hsome := (parseDMY_some_iff s.data (digitsToNat a2) (digitsToNat b2)
            (digitsToNat c2)).mpr ⟨a2, b2, c2, heq2, hda2, hmb2, hyc2, rfl, rfl, rfl⟩
          rw [hp] at hsome
          obtain ⟨hd2, hm2, hy2⟩ : d' = digitsToNat a2 ∧ m' = digitsToNat b2 ∧
              y' = digitsToNat c2 := by simpa using hsome
          rw [hd2, hm2, hy2]
      next hcond =>
        constructor
        · intro h
          exact absurd h (by simp)
        · rintro ⟨a2, b2, c2, heq2, hda2, hmb2, hyc2, rfl, h1, h2⟩
          exfalso
          have hsome := (parseDMY_some_iff s.data (digitsToNat a2) (digitsToNat b2)
            (digitsToNat c2)).mpr ⟨a2, b2, c2, heq2, hda2, hmb2, hyc2, rfl, rfl, rfl⟩
          rw [hp] at hsome
          obtain ⟨hd2, hm2, hy2⟩ : d' = digitsToNat a2 ∧ m' = digitsToNat b2 ∧
              y' = digitsToNat c2 := by simpa using hsome
          exact hcond ⟨by rw [hy2]; exact h1, by rw [hd2, hm2, hy2]; exact h2⟩
  refine ⟨main, ?_, ?_, rfl, rfl⟩
  · intro s dt h
    obtain ⟨a, b, c, heq, hda, hmb, hyc, rfl, h1, h2⟩ := (main s dt).mp h
    have hdv := dayTokenP_val a hda
    have hmv : 1 ≤ digitsToNat b ∧ digitsToNat b ≤ 12 := ⟨hmb.2.2.1, hmb.2.2.2⟩
    have hyv := yearTokenP_val c hyc
    unfold validDate
    rw [decide_eq_true_eq]
    dsimp only
    exact ⟨h1, hyv, hmv.1, hmv.2, hdv.1, h2⟩
  · intro s e h
    unfold validate_birthday at h
    rcases hp : parseDMY s.data with _ | ⟨d', m', y'⟩
    · rw [hp] at h
      dsimp only at h
      exact ((Except.error.injEq _ _).mp h).symm
    · rw [hp] at h
      dsimp only at h
      split at h
      · exact absurd h (by simp)
      · exact ((Except.error.injEq _ _).mp h).symm

/-- Witness for C2 (amended) at a concrete input: the acceptance
characterization applied to `15.03.1990`. -/
theorem validate_birthday_spec_witness :
    ∃ a b c : List Char, "15.03.1990".data = a ++ '.' :: (b ++ '.' :: c) ∧
      dayTokenP a ∧ monthTokenP b ∧ yearTokenP c ∧
      (⟨1990, 3, 15⟩ : Date) = ⟨digitsToNat c, digitsToNat b, digitsToNat a⟩ ∧
      1 ≤ digitsToNat c ∧
      digitsToNat a ≤ daysInMonth (digitsToNat c) (digitsToNat b) :=
  (validate_birthday_spec.1 "15.03.1990" ⟨1990, 3, 15⟩).mp rfl

/-- C2 counterexample: `5.3.2024` is not in the two-digit `DD.MM.YYYY`
format the claim describes, yet the code accepts it, refuting the
claimed "accepts if and only if written exactly in DD.MM.YYYY". -/
theorem validate_birthday_counterexample :
    validate_birthday "5.3.2024" = .ok ⟨2024, 3, 5⟩ ∧ strictFormat "5.3.2024" = false :=
  ⟨rfl, by decide⟩

end ABook
